import Mathlib

/-!
Verification development for the snappier-server-docker notification webhook
(`notify/enhanced_webhook.py`).  The Python source is shallowly embedded:
pure helper functions become Lean functions over `List Char` / `String`,
Python floats are modelled as exact rationals (`ℚ`), machine integers as `ℤ`,
stateful caches as explicit state values threaded through the functions, and
fallible parsing returns `Option`.  Each section names the Python function it
embeds.
-/

/-! ## Python string primitives

The webhook operates on ASCII channel names, titles and timestamps; the
string helpers below model `str.strip`, `str.lower`, `str.upper`, `in`,
`str.replace`, `str.split` and the regex substitutions on that ASCII
fragment, defined structurally over `List Char` so they evaluate in the
kernel. -/

def lcChar (c : Char) : Char :=
  if 'A' ≤ c ∧ c ≤ 'Z' then Char.ofNat (c.toNat + 32) else c

def ucChar (c : Char) : Char :=
  if 'a' ≤ c ∧ c ≤ 'z' then Char.ofNat (c.toNat - 32) else c

/-- `str.lower()`. -/
def pyLower (s : String) : String := ⟨s.data.map lcChar⟩

/-- `str.upper()`. -/
def pyUpper (s : String) : String := ⟨s.data.map ucChar⟩

/-- Whitespace class of Python's `str.strip()` / regex `\s` (ASCII part). -/
def pySpace (c : Char) : Bool :=
  c = ' ' ∨ c = '\t' ∨ c = '\n' ∨ c = '\r' ∨ c = '\x0b' ∨ c = '\x0c'

def dropEndWhile (p : Char → Bool) (l : List Char) : List Char :=
  (l.reverse.dropWhile p).reverse

/-- `str.strip()` (no arguments: strip whitespace from both ends). -/
def pyStrip (s : String) : String :=
  ⟨dropEndWhile pySpace (s.data.dropWhile pySpace)⟩

/-- `str.strip(chars)` for an explicit character set. -/
def pyStripChars (cs : List Char) (s : String) : String :=
  ⟨dropEndWhile (fun c => c ∈ cs) (s.data.dropWhile (fun c => c ∈ cs))⟩

/-- `str.lstrip(chars)`. -/
def pyLStripChars (cs : List Char) (s : String) : String :=
  ⟨s.data.dropWhile (fun c => c ∈ cs)⟩

/-- Python substring test `needle in hay`. -/
def pyIn (needle hay : String) : Bool :=
  (List.range (hay.data.length + 1)).any
    (fun i => ((hay.data.drop i).take needle.data.length) == needle.data)

/-- `str.startswith`. -/
def pyStarts (s pre : String) : Bool := s.data.take pre.data.length == pre.data

/-- `str.endswith`. -/
def pyEnds (s post : String) : Bool :=
  s.data.drop (s.data.length - post.data.length) == post.data ∧
  post.data.length ≤ s.data.length

/-- Remove every occurrence of a single character (`str.replace(c, '')`). -/
def pyRemoveChar (c : Char) (s : String) : String := ⟨s.data.filter (· ≠ c)⟩

def splitOnCharAux (sep : Char) : List Char → List Char → List String
  | [], acc => [⟨acc.reverse⟩]
  | c :: rest, acc =>
      if c = sep then ⟨acc.reverse⟩ :: splitOnCharAux sep rest []
      else splitOnCharAux sep rest (c :: acc)

/-- `str.split(sep)` for a one-character separator. -/
def pySplitChar (sep : Char) (s : String) : List String :=
  splitOnCharAux sep s.data []

/-- Word character class of regex `\w` (ASCII part: alphanumerics and `_`). -/
def wordChar (c : Char) : Bool :=
  ('a' ≤ c ∧ c ≤ 'z') ∨ ('A' ≤ c ∧ c ≤ 'Z') ∨ ('0' ≤ c ∧ c ≤ '9') ∨ c = '_'

/-- `re.sub(r'[^\w\s]', '', s)`: drop punctuation, keep word chars and
whitespace. -/
def stripPunct (s : String) : String :=
  ⟨s.data.filter (fun c => wordChar c ∨ pySpace c)⟩

def collapseWsAux : List Char → Bool → List Char
  | [], _ => []
  | c :: rest, inWs =>
      if pySpace c then
        if inWs then collapseWsAux rest true else ' ' :: collapseWsAux rest true
      else c :: collapseWsAux rest false

/-- `re.sub(r'\s+', ' ', s)`: collapse whitespace runs to single spaces. -/
def collapseWs (s : String) : String := ⟨collapseWsAux s.data false⟩

/-- Replace each single character `a` by the string `b`
(`str.replace(a, b)` with a one-character pattern). -/
def pyReplaceChar (a : Char) (b : String) (s : String) : String :=
  ⟨s.data.flatMap (fun c => if c = a then b.data else [c])⟩

/-- Python truthiness for an optional string field: `None` and `''` are
falsy. -/
def truthyS : Option String → Bool
  | none => false
  | some s => s ≠ ""

/-- `a or b or ...` over optional string fields, collapsing the falsy
results (`None` and `''` behave identically downstream). -/
def firstTruthy : List (Option String) → Option String
  | [] => none
  | o :: rest => if truthyS o then o else firstTruthy rest

/-! ## Timestamp normalization

Embeds `_parse_timestamp` / `_normalize_start`.  A parsed timestamp is
represented directly by its epoch value (`int(dt.timestamp())`), computed
with proleptic-Gregorian day arithmetic, which is exactly what
`datetime(...,tz).timestamp()` yields for the tz-aware datetimes the code
builds. -/

def charsToNat (cs : List Char) : ℕ :=
  cs.foldl (fun a c => a * 10 + (c.toNat - 48)) 0

def isLeapYear (y : ℕ) : Bool := y % 4 = 0 ∧ (y % 100 ≠ 0 ∨ y % 400 = 0)

def daysInMonth (y m : ℕ) : ℕ :=
  if m = 2 then (if isLeapYear y then 29 else 28)
  else if m = 4 ∨ m = 6 ∨ m = 9 ∨ m = 11 then 30 else 31

def daysBeforeMonth (y m : ℕ) : ℕ :=
  (List.range (m - 1)).foldl (fun a i => a + daysInMonth y (i + 1)) 0

/-- Days from 0001-01-01 to the given proleptic-Gregorian date. -/
def ordinalDays (y m d : ℕ) : ℕ :=
  365 * (y - 1) + (y - 1) / 4 - (y - 1) / 100 + (y - 1) / 400 +
    daysBeforeMonth y m + (d - 1)

/-- Epoch seconds of a civil datetime at UTC offset `tzOff` seconds. -/
def civilToEpoch (y m d h mi s : ℕ) (tzOff : ℤ) : ℤ :=
  ((ordinalDays y m d : ℤ) - (ordinalDays 1970 1 1 : ℤ)) * 86400 +
    (h : ℤ) * 3600 + (mi : ℤ) * 60 + (s : ℤ) - tzOff

/-- Field validation done by `datetime.strptime` / the `datetime`
constructor. -/
def validCivil (y m d h mi s : ℕ) : Bool :=
  1 ≤ y ∧ y ≤ 9999 ∧ 1 ≤ m ∧ m ≤ 12 ∧ 1 ≤ d ∧ d ≤ daysInMonth y m ∧
    h ≤ 23 ∧ mi ≤ 59 ∧ s ≤ 59

/-- Parse exactly 14 digits as `%Y%m%d%H%M%S` and convert with offset. -/
def parseCompact14 (ds : List Char) (tzOff : ℤ) : Option ℤ :=
  let y := charsToNat (ds.take 4)
  let mo := charsToNat ((ds.drop 4).take 2)
  let d := charsToNat ((ds.drop 6).take 2)
  let h := charsToNat ((ds.drop 8).take 2)
  let mi := charsToNat ((ds.drop 10).take 2)
  let s := charsToNat ((ds.drop 12).take 2)
  if validCivil y mo d h mi s then some (civilToEpoch y mo d h mi s tzOff)
  else none

/-- First index `≥ 8` holding `+` or `-` (the offset scan of
`_parse_timestamp`). -/
def findSignIdx (cs : List Char) : Option ℕ :=
  (List.range cs.length).find?
    (fun i => 8 ≤ i ∧ (cs.getD i ' ' = '+' ∨ cs.getD i ' ' = '-'))

/-- Offset suffix handling: strip, drop `:`s, require `^[+-]\d{4}$`; on a
match return the offset in seconds, otherwise `none` (UTC is kept). -/
def parseOffset (off : String) : Option ℤ :=
  let o := (pyRemoveChar ':' (pyStrip off)).data
  match o with
  | sign :: rest =>
      if (sign = '+' ∨ sign = '-') ∧ rest.length = 4 ∧ rest.all Char.isDigit then
        let secs : ℤ := (charsToNat (rest.take 2) : ℤ) * 3600 +
          (charsToNat (rest.drop 2) : ℤ) * 60
        some (if sign = '+' then secs else -secs)
      else none
  | [] => none

def allDigits (cs : List Char) : Bool := cs.all Char.isDigit

/-- Models `datetime.fromisoformat` on the fully-specified form
`YYYY-MM-DD[T ]HH:MM:SS±HH:MM` produced by the `Z → +00:00` rewrite;
other shapes yield `none`, making the caller fall through to the
compact-digits path exactly as the Python `except: pass` does. -/
def isoParseEpoch (s : String) : Option ℤ :=
  let cs := s.data
  if cs.length = 25 ∧ allDigits (cs.take 4) ∧ cs.getD 4 ' ' = '-' ∧
      allDigits ((cs.drop 5).take 2) ∧ cs.getD 7 ' ' = '-' ∧
      allDigits ((cs.drop 8).take 2) ∧
      (cs.getD 10 ' ' = 'T' ∨ cs.getD 10 ' ' = ' ') ∧
      allDigits ((cs.drop 11).take 2) ∧ cs.getD 13 ' ' = ':' ∧
      allDigits ((cs.drop 14).take 2) ∧ cs.getD 16 ' ' = ':' ∧
      allDigits ((cs.drop 17).take 2) ∧
      (cs.getD 19 ' ' = '+' ∨ cs.getD 19 ' ' = '-') ∧
      allDigits ((cs.drop 20).take 2) ∧ cs.getD 22 ' ' = ':' ∧
      allDigits ((cs.drop 23).take 2) then
    let y := charsToNat (cs.take 4)
    let mo := charsToNat ((cs.drop 5).take 2)
    let d := charsToNat ((cs.drop 8).take 2)
    let h := charsToNat ((cs.drop 11).take 2)
    let mi := charsToNat ((cs.drop 14).take 2)
    let sec := charsToNat ((cs.drop 17).take 2)
    let oh := charsToNat ((cs.drop 20).take 2)
    let om := charsToNat ((cs.drop 23).take 2)
    if validCivil y mo d h mi sec ∧ oh ≤ 23 ∧ om ≤ 59 then
      let off : ℤ := (oh : ℤ) * 3600 + (om : ℤ) * 60
      some (civilToEpoch y mo d h mi sec (if cs.getD 19 ' ' = '+' then off else -off))
    else none
  else none

/-- `_parse_timestamp` composed with `int(dt.timestamp())` on an already
stripped, non-empty text. -/
def parseEpochText (text : String) : Option ℤ :=
  let zBranch :=
    if pyEnds text "Z" then isoParseEpoch (pyReplaceChar 'Z' "+00:00" text)
    else none
  match zBranch with
  | some e => some e
  | none =>
      let sanitized := (pyRemoveChar 'T' text).data
      let (base, offRaw) :=
        match findSignIdx sanitized with
        | some i => (sanitized.take i, sanitized.drop i)
        | none => (sanitized, [])
      let digits := base.filter Char.isDigit
      if digits.length < 6 then none
      else
        let d14 :=
          if digits.length < 14 then digits ++ List.replicate (14 - digits.length) '0'
          else digits.take 14
        let tz : ℤ :=
          match offRaw with
          | [] => 0
          | o => (parseOffset ⟨o⟩).getD 0
        parseCompact14 d14 tz

/-- `_normalize_start`: `None`/empty/unparseable raw values give `none`. -/
def normalizeStart (raw : Option String) : Option ℤ :=
  match raw with
  | none => none
  | some r =>
      if r = "" then none
      else
        let text := pyStrip r
        if text = "" then none else parseEpochText text

/-! ## Channel-name normalizer (`clean_channel_name`) -/

/-- `re.sub(r'\.(us|ca|uk|au|mx|tv)\b', '', val, flags=IGNORECASE)`:
drop a dot followed by a two-letter region code at a word boundary. -/
def dropRegionTlds : List Char → List Char
  | [] => []
  | '.' :: a :: b :: rest =>
      if ([lcChar a, lcChar b] ∈ [['u','s'], ['c','a'], ['u','k'], ['a','u'],
            ['m','x'], ['t','v']]) ∧ (rest.head?.all (fun c => ¬ wordChar c)) then
        dropRegionTlds rest
      else '.' :: dropRegionTlds (a :: b :: rest)
  | c :: rest => c :: dropRegionTlds rest

def REGION_PREFIXES : List String := ["US", "CA", "UK", "AU", "MX", "NZ"]

/-- The region-prefix stripping loop of `clean_channel_name`; at most one
two-letter prefix can match, so the (hash-ordered) Python set iteration is
order-independent. -/
def stripRegionPrefix (val : String) : String :=
  match REGION_PREFIXES.find? (fun p => pyStarts (pyUpper val) p) with
  | some p =>
      let remainder := pyLStripChars [':', ' '] ⟨val.data.drop p.data.length⟩
      if remainder ≠ "" then remainder else val
  | none => val

/-- `clean_channel_name(value)`. -/
def cleanChannelName (value : Option String) : String :=
  match value with
  | none => ""
  | some v =>
      if v = "" then ""
      else
        let val := pyStrip v
        if val = "" then ""
        else
          let val :=
            if pyIn "|" val then
              let pieces := (pySplitChar '|' val).map pyStrip |>.filter (· ≠ "")
              match pieces.getLast? with
              | some p => p
              | none => val
            else val
          let val := pyReplaceChar '_' " " val
          let val := ⟨dropRegionTlds val.data⟩
          let val := pyReplaceChar '/' " / " val
          let val := pyStrip (collapseWs val)
          let val := stripRegionPrefix val
          pyStripChars [' ', '-', ':'] val

/-! ## Guide events and the Programme Matcher scoring
(`cache_find_program`, lines 559-703)

A guide event is a JSON object; the matcher reads its `title`, `start`,
`channel` and `priority` keys (absent keys and `None` values behave
identically downstream and are both modelled as `none`).  Python float
scores are modelled as exact rationals. -/

structure Event where
  title : Option String := none
  subtitle : Option String := none
  desc : Option String := none
  start : Option String := none
  channel : Option String := none
  typ : Option String := none
  year : Option String := none
  priority : Option ℤ := none
deriving DecidableEq, Repr

/-- The matcher's query: raw payload fields plus the catch-up flag. -/
structure Query where
  title : Option String := none
  channel : Option String := none
  start : Option String := none
  preferPast : Bool := false
deriving DecidableEq, Repr

/-- `title_key = (title or '').strip().lower()` (also used per event). -/
def titleKeyOf (t : Option String) : String := pyLower (pyStrip (t.getD ""))

/-- `re.sub(r'[^\w\s]', '', key).strip()`. -/
def punctNorm (s : String) : String := pyStrip (stripPunct s)

def Query.titleKey (q : Query) : String := titleKeyOf q.title

def Query.channelClean (q : Query) : String := cleanChannelName q.channel

def Query.startKey (q : Query) : Option ℤ := normalizeStart q.start

/-- Title contribution: exact normalized match +6, normalized substring
either direction +4, raw substring +3 (guarded by both titles truthy). -/
def titleScorePart (titleKey : String) (evTitle : Option String) : ℚ :=
  let evT := titleKeyOf evTitle
  let evN := punctNorm evT
  let keyN := punctNorm titleKey
  if titleKey ≠ "" ∧ evT ≠ "" then
    if evN = keyN then 6
    else if pyIn keyN evN ∨ pyIn evN keyN then 4
    else if pyIn titleKey evT then 3
    else 0
  else 0

/-- Time contribution: proximity buckets, plus for `prefer_past` the linear
24h distance bonus and the past/future adjustment. -/
def timeScorePart (preferPast : Bool) (startKey : Option ℤ) (evStart : Option String) : ℚ :=
  match startKey, normalizeStart evStart with
  | some sk, some ek =>
      let diff : ℤ := |ek - sk|
      let offset : ℤ := ek - sk
      let prox : ℚ :=
        if diff = 0 then 20
        else if diff ≤ 60 then 10
        else if diff ≤ 180 then 5
        else if diff ≤ 600 then 2
        else 0
      let distanceBonus : ℚ :=
        if preferPast ∧ diff ≤ 86400 then
          max 0 (3 - ((diff : ℚ) / 3600) / 8)
        else 0
      let pastAdj : ℚ :=
        if preferPast then
          if offset < -3600 then 5
          else if offset > 3600 then -15
          else 0
        else 0
      prox + distanceBonus + pastAdj
  | _, _ => 0

/-- Channel contribution: exact cleaned match +4, query-channel substring
+2. -/
def chanScorePart (channelClean : String) (evChannel : Option String) : ℚ :=
  if channelClean ≠ "" then
    let evc := cleanChannelName evChannel
    if evc ≠ "" then
      if pyLower evc = pyLower channelClean then 4
      else if pyIn (pyLower channelClean) (pyLower evc) then 2
      else 0
    else 0
  else 0

/-- Network-preference contribution over the uppercased raw channel. -/
def netScorePart (evChannel : Option String) : ℚ :=
  let c := pyUpper (evChannel.getD "")
  if pyIn "FOXNEWS" c ∨ pyIn "FOX NEWS" c then 5
  else if pyIn "NBC" c ∨ pyIn "CBS" c ∨ pyIn "ABC" c ∨ pyIn "FOX" c then 3
  else if pyIn "AMC" c ∨ pyIn "TNT" c ∨ pyIn "USA" c ∨ pyIn "TBS" c ∨
      pyIn "BRAVO" c ∨ pyIn "FX" c ∨ pyIn "HULU" c then 4
  else if pyIn "AFN" c ∨ pyIn "MILITARY" c then -10
  else 0

/-- Explicit integer `priority` field, clamped to `[0, 3]`. -/
def prioScorePart : Option ℤ → ℚ
  | some p => ((max 0 (min p 3) : ℤ) : ℚ)
  | none => 0

/-- Total candidate score of `cache_find_program` (the sequential `score +=`
accumulation, written as the sum of its five contributions). -/
def scoreEvent (q : Query) (ev : Event) : ℚ :=
  titleScorePart q.titleKey ev.title + timeScorePart q.preferPast q.startKey ev.start +
    chanScorePart q.channelClean ev.channel + netScorePart ev.channel +
    prioScorePart ev.priority

/-- Best-so-far state of the selection loop (`best`, `best_score`). -/
structure ScanState where
  best : Option Event
  bestScore : ℚ
deriving DecidableEq, Repr

/-- The tie-break test of the selection loop: there is a current best,
`prefer_past` is set, both normalized starts parse, and the candidate
airs strictly earlier. -/
def tiePrefersEarlier (q : Query) (st : ScanState) (ev : Event) : Bool :=
  match st.best with
  | some b =>
      if q.preferPast then
        match normalizeStart ev.start, normalizeStart b.start with
        | some a, some c => decide (a < c)
        | _, _ => false
      else false
  | none => false

/-- One iteration of the selection loop: the `should_update` decision
(strictly better score, or an exact tie broken towards the earlier
normalized start when `prefer_past`), the state update, and the `score >=
12` early-exit flag. -/
def scanStep (q : Query) (st : ScanState) (ev : Event) : ScanState × Bool :=
  let score := scoreEvent q ev
  if score > st.bestScore ∨ (score = st.bestScore ∧ tiePrefersEarlier q st ev) then
    (⟨some ev, score⟩, decide (12 ≤ score))
  else (st, false)

/-- The candidate scan: fold `scanStep` over the list, stopping on the
early-exit flag. -/
def scanGo (q : Query) : List Event → ScanState → ScanState
  | [], st => st
  | ev :: rest, st =>
      match scanStep q st ev with
      | (st', true) => st'
      | (st', false) => scanGo q rest st'

/-- The matcher's selection over an already-generated candidate list:
the scan, then the `if not best: best = candidates[0]` fallback
(`return None` only when the candidate list is empty). -/
def selectBest (q : Query) (candidates : List Event) : Option Event :=
  let st := scanGo q candidates ⟨none, -1⟩
  match st.best with
  | some b => some b
  | none => candidates.head?

/-! ## Remote Resolver selection (`_coerce_event`, `_pick_best_from_list`) -/

/-- A raw search hit with the field-name synonyms `_coerce_event`
tolerates. -/
structure RawHit where
  title : Option String := none
  name : Option String := none
  programTitle : Option String := none
  subtitle : Option String := none
  episodeTitle : Option String := none
  descField : Option String := none
  description : Option String := none
  start : Option String := none
  start_ts : Option String := none
  startTime : Option String := none
  channel : Option String := none
  channelName : Option String := none
  ch : Option String := none
  typ : Option String := none
  year : Option String := none
  releaseYear : Option String := none
deriving DecidableEq, Repr

/-- `_coerce_event`: collapse the synonym fields with `or`-chains.  The
coerced record carries no `priority` key. -/
def coerceEvent (h : RawHit) : Event :=
  { title := firstTruthy [h.title, h.name, h.programTitle]
    subtitle := firstTruthy [h.subtitle, h.episodeTitle]
    desc := firstTruthy [h.descField, h.description]
    start := firstTruthy [h.start, h.start_ts, h.startTime]
    channel := firstTruthy [h.channel, h.channelName, h.ch]
    typ := h.typ
    year := firstTruthy [h.year, h.releaseYear]
    priority := none }

/-- The scoring rubric of `_pick_best_from_list`: title exact +10 /
query-substring +4; time within 60s +8 / 300s +5 / 900s +3.  Integer-valued
(no fractional contributions exist here). -/
def pickScore (want : String) (wantStartKey : Option ℤ) (cev : Event) : ℤ :=
  let titlePart : ℤ :=
    if want ≠ "" then
      let evTitle := pyLower (pyStrip (cev.title.getD ""))
      if evTitle = want then 10
      else if pyIn want evTitle then 4
      else 0
    else 0
  let timePart : ℤ :=
    match wantStartKey, normalizeStart cev.start with
    | some wk, some ek =>
        let diff := |ek - wk|
        if diff ≤ 60 then 8
        else if diff ≤ 300 then 5
        else if diff ≤ 900 then 3
        else 0
    | _, _ => 0
  titlePart + timePart

/-- The `_pick_best_from_list` loop: skip zero-scoring candidates once a
best exists, keep the strictly-higher-scoring candidate. -/
def pickGo (want : String) (wantStartKey : Option ℤ) :
    List RawHit → Option Event → ℤ → Option Event
  | [], best, _ => best
  | h :: rest, best, bestScore =>
      let cev := coerceEvent h
      let score := pickScore want wantStartKey cev
      if score = 0 ∧ best.isSome then pickGo want wantStartKey rest best bestScore
      else if score > bestScore then pickGo want wantStartKey rest (some cev) score
      else pickGo want wantStartKey rest best bestScore

/-- `_pick_best_from_list(lst, want_title, want_start)`; when nothing is
selected the first coercible hit is returned. -/
def pickBestFromList (lst : List RawHit) (wantTitle wantStart : Option String) :
    Option Event :=
  let want := pyLower (pyStrip (wantTitle.getD ""))
  let wk := normalizeStart wantStart
  match pickGo want wk lst none (-1) with
  | some b => some b
  | none => lst.head?.map coerceEvent

/-! ## Guide Index build (`_ensure_epg_index`, lines 258-311)

The index-building portion: fold the programme list into `by_start` /
`by_title` (insertion-ordered association lists, mirroring Python dicts),
count `total_entries`, and apply the size-limit shrink.  The snapshot
cache / hit counters and the channel-display table are I/O-level and not
modelled; `warned` records the `memory_warnings` increment. -/

/-- Stable insertion sort: `insSorted le a l` places `a` before the first
element it `le`-precedes.  Folding from the right reproduces Python's
stable `sorted`. -/
def insSorted {α : Type} (le : α → α → Bool) (a : α) : List α → List α
  | [] => [a]
  | b :: bs => if le a b then a :: b :: bs else b :: insSorted le a bs

/-- Python `sorted(l, ...)`: stable with respect to the total preorder
`le`. -/
def stableSort {α : Type} (le : α → α → Bool) (l : List α) : List α :=
  l.foldr (insSorted le) []

/-- `dict.setdefault(k, []).append(v)` on an insertion-ordered assoc
list. -/
def assocAppend {α β : Type} [DecidableEq α] (l : List (α × List β)) (k : α) (v : β) :
    List (α × List β) :=
  if (l.map Prod.fst).contains k then
    l.map (fun e => if e.1 = k then (e.1, e.2 ++ [v]) else e)
  else l ++ [(k, [v])]

def assocFind {α β : Type} [DecidableEq α] (k : α) : List (α × β) → Option β
  | [] => none
  | (k', v) :: rest => if k' = k then some v else assocFind k rest

structure EpgIndex where
  byStart : List (ℤ × List Event)
  byTitle : List (String × List Event)
  totalPre : ℕ
  warned : Bool
deriving Repr

/-- The indexing fold: each parseable start appends to its `by_start`
bucket (+1 entry); each non-empty lowercased title appends to its
`by_title` bucket when that bucket holds fewer than 50 (+1 entry). -/
def indexInsert (acc : List (ℤ × List Event) × List (String × List Event) × ℕ)
    (ev : Event) : List (ℤ × List Event) × List (String × List Event) × ℕ :=
  let (byStart, byTitle, total) := acc
  let (byStart, total) :=
    match normalizeStart ev.start with
    | some sk => (assocAppend byStart sk ev, total + 1)
    | none => (byStart, total)
  match titleKeyOf ev.title with
  | "" => (byStart, byTitle, total)
  | t =>
      match assocFind t byTitle with
      | none => (byStart, byTitle ++ [(t, [ev])], total + 1)
      | some bucket =>
          if bucket.length < 50 then
            (byStart, assocAppend byTitle t ev, total + 1)
          else (byStart, byTitle, total)

/-- `_ensure_epg_index` build + size-limit enforcement for a given
`EPG_INDEX_MAX_SIZE`. -/
def buildEpgIndex (maxSize : ℕ) (programmes : List Event) : EpgIndex :=
  let (byStart, byTitle, total) := programmes.foldl indexInsert ([], [], 0)
  if total > maxSize then
    let byStart :=
      if byStart.length > maxSize / 2 then
        let sortedKeys := (stableSort (fun a b => decide (b ≤ a)) (byStart.map Prod.fst)).take (maxSize / 2)
        sortedKeys.filterMap (fun k => (assocFind k byStart).map (fun b => (k, b)))
      else byStart
    let byTitle :=
      if byTitle.length > maxSize / 2 then
        (stableSort (fun a b => decide (b.2.length ≤ a.2.length)) byTitle).take (maxSize / 2)
      else byTitle
    ⟨byStart, byTitle, total, true⟩
  else ⟨byStart, byTitle, total, false⟩

/-- Total indexed entry count of a built index (the quantity the
size-limit invariant speaks about). -/
def EpgIndex.totalEntries (idx : EpgIndex) : ℕ :=
  (idx.byStart.map (fun b => b.2.length)).sum +
    (idx.byTitle.map (fun b => b.2.length)).sum

/-! ## Bounded LRU cache (`BoundedDict`, lines 112-132) -/

/-- `BoundedDict(max_size)`: an insertion-ordered mapping (oldest first)
with a hard size cap. -/
structure BoundedDict (K V : Type) where
  maxSize : ℕ
  entries : List (K × V)
deriving Repr

def BoundedDict.keys {K V : Type} (d : BoundedDict K V) : List K :=
  d.entries.map Prod.fst

def bdEmpty {K V : Type} (maxSize : ℕ) : BoundedDict K V := ⟨maxSize, []⟩

/-- `__setitem__`: drop any existing binding, append at the
most-recently-used end, then evict from the least-recently-used end while
over capacity. -/
def bdSet {K V : Type} [DecidableEq K] (d : BoundedDict K V) (k : K) (v : V) :
    BoundedDict K V :=
  let purged := if k ∈ d.keys then d.entries.filter (fun e => e.1 ≠ k) else d.entries
  let appended := purged ++ [(k, v)]
  ⟨d.maxSize, appended.drop (appended.length - d.maxSize)⟩

/-- `__getitem__`: return the value and `move_to_end` the key (a miss
raises `KeyError` in Python; modelled as `none` with the state
unchanged). -/
def bdGet {K V : Type} [DecidableEq K] (d : BoundedDict K V) (k : K) :
    Option V × BoundedDict K V :=
  match assocFind k d.entries with
  | some v => (some v, ⟨d.maxSize, d.entries.filter (fun e => e.1 ≠ k) ++ [(k, v)]⟩)
  | none => (none, d)

/-- Insert a key-value sequence left to right. -/
def bdSetList {K V : Type} [DecidableEq K] (d : BoundedDict K V) (l : List (K × V)) :
    BoundedDict K V :=
  l.foldl (fun d e => bdSet d e.1 e.2) d

/-! ## Notification Deduplicator (`_check_and_record_notification`,
lines 58-88)

Wall-clock times are rationals; the MD5 keying is modelled by the joined
`action:job:file` string itself (MD5 is deterministic, so equal triples
give equal keys, which is the only property the dedup logic relies on). -/

def NOTIFICATION_DEDUP_WINDOW : ℚ := 60

def dedupKey (action jobIdFull filePath : String) : String :=
  action ++ ":" ++ jobIdFull ++ ":" ++ filePath

structure DedupCache where
  entries : List (String × ℚ)
deriving DecidableEq, Repr

/-- `while len > 1000: popitem(last=False)`. -/
def dedupEvict (l : List (String × ℚ)) : List (String × ℚ) :=
  l.drop (l.length - 1000)

/-- `_check_and_record_notification`: returns
`(is_duplicate, time_since_last, updated cache)`. -/
def checkAndRecord (c : DedupCache) (action jobIdFull filePath : String) (now : ℚ) :
    Bool × ℚ × DedupCache :=
  let key := dedupKey action jobIdFull filePath
  match assocFind key c.entries with
  | some lastSent =>
      let elapsed := now - lastSent
      if elapsed < NOTIFICATION_DEDUP_WINDOW then (true, elapsed, c)
      else
        let purged := c.entries.filter (fun e => e.1 ≠ key)
        (false, 0, ⟨dedupEvict (purged ++ [(key, now)])⟩)
  | none => (false, 0, ⟨dedupEvict (c.entries ++ [(key, now)])⟩)

/-! ## JSON scalars and `_as_int` -/

/-- A JSON scalar as it reaches `payload.get("exit_code")`; floats are
exact rationals. -/
inductive JVal where
  | jnull
  | jbool (b : Bool)
  | jint (n : ℤ)
  | jfloat (q : ℚ)
  | jstr (s : String)
deriving DecidableEq, Repr

/-- Python `int(str)`: optional surrounding whitespace, optional sign,
one-or-more digits (digit-group underscores are not modelled). -/
def pyIntOfString (s : String) : Option ℤ :=
  let cs := (pyStrip s).data
  let (sign, digits) : ℤ × List Char :=
    match cs with
    | '+' :: rest => (1, rest)
    | '-' :: rest => (-1, rest)
    | rest => (1, rest)
  if digits ≠ [] ∧ digits.all Char.isDigit then some (sign * (charsToNat digits : ℤ))
  else none

/-- Python float-to-int truncation toward zero. -/
def truncToInt (q : ℚ) : ℤ := q.num.tdiv (q.den : ℤ)

/-- `_as_int(x)` with the default `None`: `int(x)` under the bare
`except` (failures — `None`, non-numeric strings — give `none`). -/
def asInt : Option JVal → Option ℤ
  | none => none
  | some .jnull => none
  | some (.jbool b) => some (if b then 1 else 0)
  | some (.jint n) => some n
  | some (.jfloat q) => some (truncToInt q)
  | some (.jstr s) => pyIntOfString s

/-! ## Delivery with retries (`pushover_send`, lines 705-772) -/

/-- Outcome of one HTTP attempt against the push transport. -/
inductive AttemptOutcome where
  | success (body : String)
  | httpFail (status : ℕ) (body : String)
  | timeout
  | netError (msg : String)
deriving DecidableEq, Repr

/-- An attempt that does not return an accepted 200/status-1 response
(HTTP failure, timeout or transport error). -/
def AttemptOutcome.isFailure : AttemptOutcome → Bool
  | .success _ => false
  | _ => true

/-- The value `pushover_send` returns. -/
inductive SendResult where
  | jsonBody (body : String)
  | statusError (status : ℕ)
  | timeoutError
  | requestError (msg : String)
  | notConfigured
  | pyNone
deriving DecidableEq, Repr

/-- What the final (non-retrying) arm returns for a given last-attempt
outcome. -/
def lastAttemptResult : AttemptOutcome → SendResult
  | .success body => .jsonBody body
  | .httpFail status body => if status = 200 then .jsonBody body else .statusError status
  | .timeout => .timeoutError
  | .netError _ => .requestError ""

/-- The `for attempt in range(max_retries)` loop of `pushover_send`:
returns the result and the list of backoff waits
(`retry_delay * 2 ** attempt`) actually slept. -/
def pushoverGo (retryDelay : ℚ) (outcomes : ℕ → AttemptOutcome) (maxRetries : ℕ)
    (attempt : ℕ) : SendResult × List ℚ :=
  if attempt < maxRetries then
    match outcomes attempt with
    | .success body => (.jsonBody body, [])
    | other =>
        if attempt + 1 < maxRetries then
          let r := pushoverGo retryDelay outcomes maxRetries (attempt + 1)
          (r.1, retryDelay * 2 ^ attempt :: r.2)
        else (lastAttemptResult other, [])
  else (.pyNone, [])
termination_by maxRetries - attempt

/-- `pushover_send` (the credentials guard plus the retry loop; the
message-composition inputs do not affect control flow). -/
def pushoverSend (configured : Bool) (retryDelay : ℚ) (maxRetries : ℕ)
    (outcomes : ℕ → AttemptOutcome) : SendResult × List ℚ :=
  if configured then pushoverGo retryDelay outcomes maxRetries 0
  else (.notConfigured, [])

/-! ## Notification Orchestrator control flow (`notify`, lines 822-1199)

The decision pipeline around the dedup cache: validate the action, dedup,
suppress zero-exit `*_exit` events, otherwise deliver.  Programme
resolution and message composition do not touch the dedup cache and do
not affect these decisions, so they are abstracted: the delivery result
is a parameter and the composed body is not modelled. -/

structure Payload where
  action : Option String := none
  jobIdFull : Option String := none
  jobId : Option String := none
  file : Option String := none
  exitCode : Option JVal := none
deriving Repr

/-- The JSON response shapes of the `notify` endpoint. -/
inductive NotifyResponse where
  | badRequest (error : String)
  | deduplicated (elapsed : ℚ) (action : String)
  | suppressed (reason : String) (action : String)
  | delivered (pushover : SendResult) (action : String)
deriving DecidableEq, Repr

/-- The `ok` field of each response (`false` only for the 400
rejection). -/
def NotifyResponse.okFlag : NotifyResponse → Bool
  | .badRequest _ => false
  | _ => true

/-- The `suppressed` flag of each response. -/
def NotifyResponse.suppressedFlag : NotifyResponse → Bool
  | .suppressed _ _ => true
  | _ => false

/-- The `pushover` field (present only on the delivered response). -/
def NotifyResponse.pushoverField : NotifyResponse → Option SendResult
  | .delivered res _ => some res
  | _ => none

/-- The orchestrator's control flow: returns the response, the dedup
cache after the request, and whether a delivery attempt was made. -/
def notifyFlow (p : Payload) (cache : DedupCache) (now : ℚ)
    (deliveryResult : SendResult) : NotifyResponse × DedupCache × Bool :=
  let action := pyLower (pyStrip (p.action.getD ""))
  if action = "" then
    (.badRequest "Missing or empty 'action' field in webhook payload", cache, false)
  else
    let jobIdFull := (firstTruthy [p.jobIdFull, p.jobId]).getD ""
    let filePath := (firstTruthy [p.file]).getD ""
    let (isDup, elapsed, cache') := checkAndRecord cache action jobIdFull filePath now
    if isDup then (.deduplicated elapsed action, cache', false)
    else if pyEnds action "_exit" ∧ (asInt p.exitCode = none ∨ asInt p.exitCode = some 0) then
      (.suppressed "exit_code==0" action, cache', false)
    else (.delivered deliveryResult action, cache', true)

/-! ## Concrete fixtures used by the counterexamples and witnesses -/

/-- Remote hit with an exact title match and no start. -/
def hitNews1 : RawHit := { title := some "news" }

/-- Remote hit with a substring title match 100 s from the query time. -/
def hitNews2 : RawHit :=
  { title := some "news tonight", start := some "20240110120140+0000" }

/-- The corresponding matcher query (no channel, live path). -/
def qC1 : Query := { title := some "news", start := some "20240110120000+0000" }

/-- Six same-start, distinct-title programmes: 6 start entries + 6 title
entries = 12 indexed entries. -/
def progsC2 : List Event :=
  ["a", "b", "c", "d", "e", "f"].map
    (fun t => { title := some t, start := some "20240101120000+0000" })

/-- Catch-up query: exact title, query channel `FOXNEWS`. -/
def qC4 : Query := { title := some "news hour", channel := some "FOXNEWS",
                     start := some "20240110120000+0000", preferPast := true }

/-- Same-title candidate 2 h in the past on a deprioritized channel. -/
def evPast : Event := { title := some "News Hour",
                        start := some "20240110100000+0000", channel := some "AFN" }

/-- Same-title candidate 2 h in the future on the preferred exact-match
channel with maximal priority. -/
def evFut : Event := { title := some "News Hour",
                       start := some "20240110140000+0000",
                       channel := some "FOXNEWS", priority := some 3 }

/-- Catch-up query without a channel (all-else-equal pair below). -/
def qW4 : Query := { title := some "news hour",
                     start := some "20240110120000+0000", preferPast := true }

def evPastW : Event := { title := some "News Hour",
                         start := some "20240110100000+0000", channel := some "ZZZ" }

def evFutW : Event := { title := some "News Hour",
                        start := some "20240110140000+0000", channel := some "ZZZ" }

/-- Catch-up query whose candidates all score `≤ 0`. -/
def qC6 : Query := { title := some "news", channel := some "AFN", preferPast := true }

/-- Substring title (+4), exact channel (+4), AFN penalty (−10): score −2. -/
def evA : Event := { title := some "newsworld", channel := some "AFN" }

/-- Exact title (+6), exact channel (+4), AFN penalty (−10): score 0. -/
def evB : Event := { title := some "news", channel := some "AFN" }

/-- Query and candidate giving an exact title and exact time match
(score 26 ≥ 12). -/
def q7 : Query := { title := some "gutfeld", start := some "20240110120000+0000" }

def ev7 : Event := { title := some "gutfeld", start := some "20240110120000+0000" }

/-- Tie-break fixtures: same score, `ev7b` airs earlier than `b7`. -/
def q7t : Query := { title := some "gutfeld", preferPast := true }

def b7 : Event := { title := some "gutfeld", start := some "20240110140000+0000" }

def ev7b : Event := { title := some "gutfeld", start := some "20240110100000+0000" }

/-- `*_exit` payload whose `exit_code` is the non-integer JSON string "1". -/
def pC5 : Payload := { action := some "recording_exit", exitCode := some (.jstr "1") }

/-- `*_exit` payloads with integer exit codes 0 and 1. -/
def pC5zero : Payload := { action := some "recording_exit", exitCode := some (.jint 0) }

def pC5one : Payload := { action := some "recording_exit", exitCode := some (.jint 1) }

/-- Ordinary failure payload for the delivery-path witness. -/
def p9 : Payload := { action := some "recording_failed", jobId := some "abc",
                      file := some "/x/a.mkv" }

/-- Payload with no `action` field. -/
def p10 : Payload := { exitCode := some (.jint 1) }

/-! ## Helper lemmas on the selection loop -/

theorem scanStep_of_gt {q : Query} {st : ScanState} {ev : Event}
    (h : scoreEvent q ev > st.bestScore) :
    scanStep q st ev = (⟨some ev, scoreEvent q ev⟩, decide (12 ≤ scoreEvent q ev)) := by
  unfold scanStep
  rw [if_pos (Or.inl h)]

theorem scanStep_of_lt {q : Query} {st : ScanState} {ev : Event}
    (h : scoreEvent q ev < st.bestScore) :
    scanStep q st ev = (st, false) := by
  unfold scanStep
  rw [if_neg]
  rintro (hgt | ⟨heq, -⟩)
  · exact absurd hgt (not_lt.mpr h.le)
  · exact absurd heq h.ne

theorem scanStep_none_of_le {q : Query} {st : ScanState} {ev : Event}
    (hb : st.best = none) (h : scoreEvent q ev ≤ st.bestScore) :
    scanStep q st ev = (st, false) := by
  have htie : tiePrefersEarlier q st ev = false := by
    simp [tiePrefersEarlier, hb]
  unfold scanStep
  rw [if_neg]
  rintro (hgt | ⟨-, htie'⟩)
  · exact absurd hgt (not_lt.mpr h)
  · rw [htie] at htie'
    exact Bool.false_ne_true htie'

theorem scanGo_cons (q : Query) (ev : Event) (rest : List Event) (st : ScanState) :
    scanGo q (ev :: rest) st =
      if (scanStep q st ev).2 = true then (scanStep q st ev).1
      else scanGo q rest (scanStep q st ev).1 := by
  rcases h : scanStep q st ev with ⟨st', b⟩
  cases b <;> simp [scanGo, h]

/-- **C7** (confirmed).  With `prefer_past=true` the scan keeps the
highest-scoring candidate seen so far (each step's best score is the max
of the previous best and the candidate's score); a later candidate whose
score exactly ties the current best becomes the new best whenever both
normalized starts parse and its start is strictly earlier; and the scan
returns immediately — ignoring the remaining candidates — as soon as a
newly selected best reaches score ≥ 12. -/
theorem C7_selection_invariants :
    (∀ (q : Query) (st : ScanState) (ev : Event),
        ((scanStep q st ev).1).bestScore = max st.bestScore (scoreEvent q ev)) ∧
    (∀ (q : Query) (st : ScanState) (ev b : Event) (a c : ℤ),
        q.preferPast = true → st.best = some b →
        scoreEvent q ev = st.bestScore →
        normalizeStart ev.start = some a → normalizeStart b.start = some c →
        a < c → (scanStep q st ev).1 = ⟨some ev, scoreEvent q ev⟩) ∧
    (∀ (q : Query) (st : ScanState) (ev : Event) (rest : List Event),
        12 ≤ scoreEvent q ev → scoreEvent q ev > st.bestScore →
        scanGo q (ev :: rest) st = ⟨some ev, scoreEvent q ev⟩) := by
  refine ⟨fun q st ev => ?_, fun q st ev b a c hpp hb heq ha hc hlt => ?_,
    fun q st ev rest h12 hgt => ?_⟩
  · rcases lt_trichotomy (scoreEvent q ev) st.bestScore with hlt | heq | hgt
    · rw [scanStep_of_lt hlt]
      exact (max_eq_left hlt.le).symm
    · unfold scanStep
      by_cases h : scoreEvent q ev > st.bestScore ∨
          (scoreEvent q ev = st.bestScore ∧ tiePrefersEarlier q st ev)
      · rw [if_pos h]
        simp [heq]
      · rw [if_neg h]
        simp [heq]
    · rw [scanStep_of_gt hgt]
      simp [max_eq_right hgt.le]
  · have htie : tiePrefersEarlier q st ev = true := by
      simp only [tiePrefersEarlier, hb, hpp, ha, hc, if_true]
      simpa using hlt
    unfold scanStep
    rw [if_pos (Or.inr ⟨heq, htie⟩)]
  · rw [scanGo_cons, scanStep_of_gt hgt, decide_eq_true h12]
    simp

/-- Witness for C7 at concrete inputs. -/
theorem C7_witness :
    ((scanStep q7 ⟨none, 5⟩ ev7).1).bestScore = max 5 (scoreEvent q7 ev7) ∧
    (scanStep q7t ⟨some b7, scoreEvent q7t ev7b⟩ ev7b).1 =
      ⟨some ev7b, scoreEvent q7t ev7b⟩ ∧
    scanGo q7 [ev7] ⟨none, -1⟩ = ⟨some ev7, scoreEvent q7 ev7⟩ := by
  have hs : scoreEvent q7 ev7 = 26 := by
    have ht : titleScorePart q7.titleKey ev7.title = 6 := by decide
    have hc : chanScorePart q7.channelClean ev7.channel = 0 := by decide
    have hn : netScorePart ev7.channel = 0 := by decide
    have hp : prioScorePart ev7.priority = 0 := by decide
    have h1 : q7.startKey = some 1704888000 := by decide
    have h2 : normalizeStart ev7.start = some 1704888000 := by decide
    rw [scoreEvent, ht, hc, hn, hp]
    simp only [timeScorePart, h1, h2]
    norm_num [q7]
  exact ⟨C7_selection_invariants.1 q7 ⟨none, 5⟩ ev7,
    C7_selection_invariants.2.1 q7t ⟨some b7, scoreEvent q7t ev7b⟩ ev7b b7
      1704880800 1704895200 (by decide) rfl rfl (by decide) (by decide) (by decide),
    C7_selection_invariants.2.2 q7 ⟨none, -1⟩ ev7 []
      (by rw [hs]; norm_num) (by rw [hs]; norm_num)⟩

/-! ## Score-contribution bounds -/

theorem chanScorePart_bounds (c : String) (ev : Option String) :
    0 ≤ chanScorePart c ev ∧ chanScorePart c ev ≤ 4 := by
  constructor <;> (unfold chanScorePart; dsimp only; split_ifs <;> norm_num)

theorem netScorePart_bounds (ev : Option String) :
    -10 ≤ netScorePart ev ∧ netScorePart ev ≤ 5 := by
  constructor <;> (unfold netScorePart; dsimp only; split_ifs <;> norm_num)

theorem prioScorePart_bounds (p : Option ℤ) :
    0 ≤ prioScorePart p ∧ prioScorePart p ≤ 3 := by
  cases p with
  | none => simp [prioScorePart]
  | some n =>
      simp only [prioScorePart]
      constructor
      · exact_mod_cast le_max_left 0 (min n 3)
      · exact_mod_cast max_le (by norm_num) (min_le_right n 3)

/-- A candidate 2 h in the past scores `0 + 11/4 + 5` on the time axis. -/
theorem timeScorePart_past {sk : ℤ} {es : Option String}
    (h : normalizeStart es = some (sk - 7200)) :
    timeScorePart true (some sk) es = 31/4 := by
  simp only [timeScorePart, h]
  have h1 : sk - 7200 - sk = -7200 := by ring
  rw [h1]
  norm_num

/-- A candidate 2 h in the future scores `0 + 11/4 - 15` on the time
axis. -/
theorem timeScorePart_future {sk : ℤ} {es : Option String}
    (h : normalizeStart es = some (sk + 7200)) :
    timeScorePart true (some sk) es = -49/4 := by
  simp only [timeScorePart, h]
  have h1 : sk + 7200 - sk = 7200 := by ring
  rw [h1]
  norm_num

/-- **C4** (corrected; amended form).  For a catch-up query with a
normalized start, and two candidates with the same exactly-matching
title, identical channel and priority fields, one 2 h in the past and one
2 h in the future, the matcher selects the past candidate in either scan
order (the channel, network-preference and priority contributions cancel,
leaving the +5 past bonus against the −15 future penalty). -/
theorem C4_prefer_past_all_else_equal (q : Query) (p f : Event) (sk : ℤ)
    (hpp : q.preferPast = true) (hsk : q.startKey = some sk)
    (htp : titleScorePart q.titleKey p.title = 6)
    (hteq : p.title = f.title)
    (hps : normalizeStart p.start = some (sk - 7200))
    (hfs : normalizeStart f.start = some (sk + 7200))
    (hch : p.channel = f.channel) (hpr : p.priority = f.priority) :
    selectBest q [p, f] = some p ∧ selectBest q [f, p] = some p := by
  set R := chanScorePart q.channelClean f.channel + netScorePart f.channel +
    prioScorePart f.priority with hR
  have hsp : scoreEvent q p = 55/4 + R := by
    rw [scoreEvent, htp, hpp, hsk, timeScorePart_past hps, hch, hpr, hR]
    ring
  have htf : titleScorePart q.titleKey f.title = 6 := by rw [← hteq]; exact htp
  have hsf : scoreEvent q f = -25/4 + R := by
    rw [scoreEvent, htf, hpp, hsk, timeScorePart_future hfs, hR]
    ring
  have hRub : R ≤ 12 := by
    have h1 := (chanScorePart_bounds q.channelClean f.channel).2
    have h2 := (netScorePart_bounds f.channel).2
    have h3 := (prioScorePart_bounds f.priority).2
    rw [hR]; linarith
  have hRlb : -10 ≤ R := by
    have h1 := (chanScorePart_bounds q.channelClean f.channel).1
    have h2 := (netScorePart_bounds f.channel).1
    have h3 := (prioScorePart_bounds f.priority).1
    rw [hR]; linarith
  have hp_init : scoreEvent q p > (ScanState.mk none (-1)).bestScore := by
    show scoreEvent q p > -1
    rw [hsp]; linarith
  have hgo1 : scanGo q [p, f] ⟨none, -1⟩ = ⟨some p, scoreEvent q p⟩ := by
    rw [scanGo_cons, scanStep_of_gt hp_init]
    cases hbr : decide (12 ≤ scoreEvent q p) with
    | true => simp
    | false =>
        simp only [Bool.false_eq_true, if_false]
        have hlt : scoreEvent q f < (ScanState.mk (some p) (scoreEvent q p)).bestScore := by
          show scoreEvent q f < scoreEvent q p
          rw [hsp, hsf]; linarith
        rw [scanGo_cons, scanStep_of_lt hlt]
        simp [scanGo]
  have hgo2 : scanGo q [f, p] ⟨none, -1⟩ = ⟨some p, scoreEvent q p⟩ := by
    rw [scanGo_cons]
    by_cases hf1 : scoreEvent q f > (ScanState.mk none (-1)).bestScore
    · rw [scanStep_of_gt hf1]
      have hbr : decide (12 ≤ scoreEvent q f) = false := by
        apply decide_eq_false
        intro hcon
        rw [hsf] at hcon
        linarith
      rw [hbr]
      simp only [Bool.false_eq_true, if_false]
      have hgt2 : scoreEvent q p > (ScanState.mk (some f) (scoreEvent q f)).bestScore := by
        show scoreEvent q p > scoreEvent q f
        rw [hsp, hsf]; linarith
      rw [scanGo_cons, scanStep_of_gt hgt2]
      cases hbr2 : decide (12 ≤ scoreEvent q p) with
      | true => simp
      | false => simp [scanGo]
    · rw [scanStep_none_of_le rfl (not_lt.mp hf1)]
      simp only [Bool.false_eq_true, if_false]
      rw [scanGo_cons, scanStep_of_gt hp_init]
      cases hbr : decide (12 ≤ scoreEvent q p) with
      | true => simp
      | false => simp [scanGo]
  constructor
  · rw [selectBest, hgo1]
  · rw [selectBest, hgo2]

/-- Witness for C4's amended theorem: an all-else-equal ±2 h pair on
channel `ZZZ`; the past airing wins in both scan orders. -/
theorem C4_witness :
    selectBest qW4 [evPastW, evFutW] = some evPastW ∧
    selectBest qW4 [evFutW, evPastW] = some evPastW :=
  C4_prefer_past_all_else_equal qW4 evPastW evFutW 1704888000
    (by decide) (by decide) (by decide) rfl (by decide) (by decide) rfl rfl

/-- Counterexample to C4 as stated: for the same-title pair `evPast`
(2 h past, channel AFN) and `evFut` (2 h future, exact-match FOXNEWS
channel, priority 3) the matcher selects the *future* candidate in both
scan orders — the claim's universal quantification over candidate pairs
fails when the channel/priority fields differ. -/
theorem C4_counterexample :
    qC4.preferPast = true ∧ qC4.startKey = some 1704888000 ∧
    titleScorePart qC4.titleKey evPast.title = 6 ∧
    evPast.title = evFut.title ∧
    normalizeStart evPast.start = some (1704888000 - 7200) ∧
    normalizeStart evFut.start = some (1704888000 + 7200) ∧
    selectBest qC4 [evPast, evFut] = some evFut ∧
    selectBest qC4 [evFut, evPast] = some evFut ∧
    evFut ≠ evPast := by
  have hs1 : scoreEvent qC4 evPast = 15/4 := by
    have h1 : qC4.startKey = some 1704888000 := by decide
    have h2 : normalizeStart evPast.start = some 1704880800 := by decide
    have ht : titleScorePart qC4.titleKey evPast.title = 6 := by decide
    have hc : chanScorePart qC4.channelClean evPast.channel = 0 := by decide
    have hn : netScorePart evPast.channel = -10 := by decide
    have hp : prioScorePart evPast.priority = 0 := by decide
    rw [scoreEvent, ht, hc, hn, hp]
    simp only [timeScorePart, h1, h2]
    norm_num [qC4]
  have hs2 : scoreEvent qC4 evFut = 23/4 := by
    have h1 : qC4.startKey = some 1704888000 := by decide
    have h2 : normalizeStart evFut.start = some 1704895200 := by decide
    have ht : titleScorePart qC4.titleKey evFut.title = 6 := by decide
    have hc : chanScorePart qC4.channelClean evFut.channel = 4 := by decide
    have hn : netScorePart evFut.channel = 5 := by decide
    have hp : prioScorePart evFut.priority = 3 := by decide
    rw [scoreEvent, ht, hc, hn, hp]
    simp only [timeScorePart, h1, h2]
    norm_num [qC4]
  have hp1 : normalizeStart evPast.start = some 1704880800 := by decide
  have hp2 : normalizeStart evFut.start = some 1704895200 := by decide
  refine ⟨by decide, by decide, by decide, by decide, by decide, by decide, ?_, ?_, by decide⟩ <;>
    norm_num [selectBest, scanGo, scanStep, tiePrefersEarlier, hs1, hs2, hp1, hp2]

/-- If every candidate scores at most the −1 sentinel, the scan never
selects anything. -/
theorem scanGo_all_le (q : Query) :
    ∀ l : List Event, (∀ c ∈ l, scoreEvent q c ≤ -1) →
      scanGo q l ⟨none, -1⟩ = ⟨none, -1⟩ := by
  intro l
  induction l with
  | nil => intro _; rfl
  | cons c rest ih =>
      intro h
      rw [scanGo_cons, scanStep_none_of_le rfl (h c (List.mem_cons_self c rest))]
      simpa using ih (fun x hx => h x (List.mem_cons_of_mem c hx))

/-- **C6** (corrected; amended form).  The first-candidate fallback fires
exactly when no candidate scores above the −1 sentinel (not above zero):
in that case the matcher returns the first candidate in scan order; and
for every non-empty candidate list the matcher returns a candidate, never
none. -/
theorem C6_fallback_first_candidate :
    (∀ (q : Query) (cands : List Event), cands ≠ [] →
        (∀ c ∈ cands, scoreEvent q c ≤ -1) → selectBest q cands = cands.head?) ∧
    (∀ (q : Query) (cands : List Event), cands ≠ [] →
        (selectBest q cands).isSome = true) := by
  constructor
  · intro q cands hne hall
    rw [selectBest, scanGo_all_le q cands hall]
  · intro q cands hne
    rw [selectBest]
    rcases hgo : (scanGo q cands ⟨none, -1⟩).best with _ | b
    · cases cands with
      | nil => exact absurd rfl hne
      | cons c rest => simp
    · simp

/-- Witness for C6's amended theorem: a single candidate scoring −10
(AFN penalty only) is returned via the fallback. -/
theorem C6_witness :
    selectBest { channel := some "XQ" : Query } [{ channel := some "AFN" : Event }] =
      some { channel := some "AFN" : Event } ∧
    (selectBest { channel := some "XQ" : Query } [{ channel := some "AFN" : Event }]).isSome
      = true := by
  have hsc : scoreEvent { channel := some "XQ" : Query } { channel := some "AFN" : Event }
      ≤ -1 := by
    have ht : titleScorePart
        (Query.titleKey { channel := some "XQ" }) (Event.title { channel := some "AFN" }) = 0 := by
      decide
    have hc : chanScorePart
        (Query.channelClean { channel := some "XQ" }) (Event.channel { channel := some "AFN" }) = 0 := by
      decide
    have hn : netScorePart (Event.channel { channel := some "AFN" }) = -10 := by decide
    have hp : prioScorePart (Event.priority { channel := some "AFN" }) = 0 := by decide
    have hk : Query.startKey { channel := some "XQ" } = none := by decide
    rw [scoreEvent, ht, hc, hn, hp]
    simp only [timeScorePart, hk]
    norm_num
  exact ⟨(C6_fallback_first_candidate.1 { channel := some "XQ" }
      [{ channel := some "AFN" }] (by simp) (by simpa using hsc)),
    C6_fallback_first_candidate.2 { channel := some "XQ" }
      [{ channel := some "AFN" }] (by simp)⟩

/-- Counterexample to C6 as stated: in `[evA, evB]` no candidate scores
above zero (−2 and 0), yet the matcher returns `evB`, not the first
candidate `evA` — the fallback threshold is the −1 sentinel, not
zero. -/
theorem C6_counterexample :
    scoreEvent qC6 evA ≤ 0 ∧ scoreEvent qC6 evB ≤ 0 ∧
    [evA, evB].head? = some evA ∧
    selectBest qC6 [evA, evB] = some evB ∧ evB ≠ evA := by
  have hk : qC6.startKey = none := by decide
  have hsA : scoreEvent qC6 evA = -2 := by
    have ht : titleScorePart qC6.titleKey evA.title = 4 := by decide
    have hc : chanScorePart qC6.channelClean evA.channel = 4 := by decide
    have hn : netScorePart evA.channel = -10 := by decide
    have hp : prioScorePart evA.priority = 0 := by decide
    rw [scoreEvent, ht, hc, hn, hp]
    simp only [timeScorePart, hk]
    norm_num
  have hsB : scoreEvent qC6 evB = 0 := by
    have ht : titleScorePart qC6.titleKey evB.title = 6 := by decide
    have hc : chanScorePart qC6.channelClean evB.channel = 4 := by decide
    have hn : netScorePart evB.channel = -10 := by decide
    have hp : prioScorePart evB.priority = 0 := by decide
    rw [scoreEvent, ht, hc, hn, hp]
    simp only [timeScorePart, hk]
    norm_num
  refine ⟨by rw [hsA]; norm_num, by rw [hsB], by decide, ?_, by decide⟩
  norm_num [selectBest, scanGo, scanStep, tiePrefersEarlier, hsA, hsB]

/-- **C1** (corrected; amended form).  The Remote Resolver's
`_pick_best_from_list` uses its own rubric, not the §4.2 scoring: on a
candidate whose title exactly equals the (non-empty) query title, with no
channel/priority data and no usable time signal, the remote rubric
assigns 10 while the Programme Matcher's scoring assigns 6 — the two
scorings are systematically different. -/
theorem C1_remote_scoring_differs (w : String) (cev : Event)
    (ht : cev.title = some w) (hw : pyLower (pyStrip w) ≠ "")
    (hc : cev.channel = none) (hp : cev.priority = none) :
    pickScore (pyLower (pyStrip w)) none cev = 10 ∧
    scoreEvent { title := some w : Query } cev = 6 := by
  constructor
  · rw [pickScore, ht]
    simp only [Option.getD_some]
    rw [if_pos hw]
    simp
    intro sk ek hcon
    exact absurd hcon (by simp)
  · have htp : titleScorePart (Query.titleKey { title := some w }) cev.title = 6 := by
      rw [ht]
      show titleScorePart (titleKeyOf (some w)) (some w) = 6
      rw [titleScorePart]
      simp only [Option.getD_some]
      rw [if_pos ⟨hw, hw⟩]
      simp
    have hcs : chanScorePart (Query.channelClean { title := some w }) cev.channel = 0 := by
      show chanScorePart (cleanChannelName none) cev.channel = 0
      have h0 : cleanChannelName none = "" := rfl
      rw [h0, chanScorePart]
      simp
    have hns : netScorePart cev.channel = 0 := by
      rw [hc]
      decide
    have hps : prioScorePart cev.priority = 0 := by rw [hp]; rfl
    have hts : timeScorePart false (Query.startKey { title := some w }) cev.start = 0 := by
      have h0 : Query.startKey { title := some w : Query } = none := rfl
      simp only [timeScorePart, h0]
    rw [scoreEvent, htp, hcs, hns, hps, hts]
    norm_num

/-- Witness for C1's amended theorem at the concrete exact-match hit. -/
theorem C1_witness :
    pickScore (pyLower (pyStrip "news")) none (coerceEvent hitNews1) = 10 ∧
    scoreEvent { title := some "news" : Query } (coerceEvent hitNews1) = 6 :=
  C1_remote_scoring_differs "news" (coerceEvent hitNews1)
    (by decide) (by decide) (by decide) (by decide)

/-- Counterexample to C1 as stated: on the list `[hitNews1, hitNews2]`
with query title "news" and the given start, the Remote Resolver assigns
`hitNews1` score 10 where §4.2 assigns 6, and the two selections pick
*different* best candidates (the remote rubric keeps the exact-title hit,
the matcher prefers the time-proximate one). -/
theorem C1_counterexample :
    pickBestFromList [hitNews1, hitNews2] (some "news") (some "20240110120000+0000")
      = some (coerceEvent hitNews1) ∧
    selectBest qC1 [coerceEvent hitNews1, coerceEvent hitNews2]
      = some (coerceEvent hitNews2) ∧
    coerceEvent hitNews1 ≠ coerceEvent hitNews2 ∧
    pickScore (pyLower (pyStrip "news")) (normalizeStart (some "20240110120000+0000"))
      (coerceEvent hitNews1) = 10 ∧
    scoreEvent qC1 (coerceEvent hitNews1) = 6 := by
  have hk : qC1.startKey = some 1704888000 := by decide
  have hq : qC1.preferPast = false := by decide
  have hs1 : scoreEvent qC1 (coerceEvent hitNews1) = 6 := by
    have ht : titleScorePart qC1.titleKey (coerceEvent hitNews1).title = 6 := by decide
    have hc : chanScorePart qC1.channelClean (coerceEvent hitNews1).channel = 0 := by decide
    have hn : netScorePart (coerceEvent hitNews1).channel = 0 := by decide
    have hp : prioScorePart (coerceEvent hitNews1).priority = 0 := by decide
    have hst : normalizeStart (coerceEvent hitNews1).start = none := by decide
    rw [scoreEvent, ht, hc, hn, hp]
    simp only [timeScorePart, hk, hst, hq]
    norm_num
  have hs2 : scoreEvent qC1 (coerceEvent hitNews2) = 9 := by
    have ht : titleScorePart qC1.titleKey (coerceEvent hitNews2).title = 4 := by decide
    have hc : chanScorePart qC1.channelClean (coerceEvent hitNews2).channel = 0 := by decide
    have hn : netScorePart (coerceEvent hitNews2).channel = 0 := by decide
    have hp : prioScorePart (coerceEvent hitNews2).priority = 0 := by decide
    have hst : normalizeStart (coerceEvent hitNews2).start = some 1704888100 := by decide
    rw [scoreEvent, ht, hc, hn, hp]
    simp only [timeScorePart, hk, hst, hq]
    norm_num
  refine ⟨by decide, ?_, by decide, by decide, hs1⟩
  norm_num [selectBest, scanGo, scanStep, tiePrefersEarlier, hs1, hs2, hq]

/-- **C2** (corrected; amended form).  When the total indexed entry count
exceeds the ceiling, the build records the size-limit event
(`memory_warnings`) and shrinks each structure to at most `N/2` *keys*
(`by_start` start keys, `by_title` titles) — the key-count bound is what
the shrink enforces, not a bound on the total entry count. -/
theorem C2_index_shrink (maxSize : ℕ) (programmes : List Event)
    (h : (buildEpgIndex maxSize programmes).totalPre > maxSize) :
    (buildEpgIndex maxSize programmes).warned = true ∧
    (buildEpgIndex maxSize programmes).byStart.length ≤ maxSize / 2 ∧
    (buildEpgIndex maxSize programmes).byTitle.length ≤ maxSize / 2 := by
  rcases hfold : programmes.foldl indexInsert ([], [], 0) with ⟨bs, bt, tot⟩
  have htot : (buildEpgIndex maxSize programmes).totalPre = tot := by
    rw [buildEpgIndex, hfold]
    dsimp only
    split_ifs <;> rfl
  rw [htot] at h
  rw [buildEpgIndex, hfold]
  dsimp only
  rw [if_pos h]
  refine ⟨rfl, ?_, ?_⟩
  · dsimp only
    split_ifs with h1
    · calc _ ≤ ((stableSort (fun a b => decide (b ≤ a)) (bs.map Prod.fst)).take (maxSize / 2)).length :=
            List.length_filterMap_le _ _
        _ ≤ maxSize / 2 := List.length_take_le _ _
    · exact le_of_not_lt h1
  · dsimp only
    split_ifs with h1
    · exact List.length_take_le _ _
    · exact le_of_not_lt h1

/-- Witness for C2's amended theorem on the six-programme snapshot with
ceiling 4. -/
theorem C2_witness :
    (buildEpgIndex 4 progsC2).warned = true ∧
    (buildEpgIndex 4 progsC2).byStart.length ≤ 4 / 2 ∧
    (buildEpgIndex 4 progsC2).byTitle.length ≤ 4 / 2 :=
  C2_index_shrink 4 progsC2 (by decide)

/-- Counterexample to C2 as stated: the six-programme snapshot indexes 12
entries against a ceiling of 4; the build increments the size-limit
counter, but the shrunk index still holds 8 entries (one start key with 6
events plus two title buckets), exceeding the ceiling. -/
theorem C2_counterexample :
    (buildEpgIndex 4 progsC2).totalPre = 12 ∧
    (buildEpgIndex 4 progsC2).warned = true ∧
    (buildEpgIndex 4 progsC2).totalEntries = 8 ∧
    ¬((buildEpgIndex 4 progsC2).totalEntries ≤ 4) := by
  refine ⟨by decide, by decide, by decide, by decide⟩

/-! ## Association-list lemmas for the dedup cache -/

theorem assocFind_of_not_mem {α β : Type} [DecidableEq α] {k : α} {l : List (α × β)}
    (h : k ∉ l.map Prod.fst) : assocFind k l = none := by
  induction l with
  | nil => rfl
  | cons e rest ih =>
      obtain ⟨k', v⟩ := e
      rw [assocFind, if_neg]
      · exact ih (fun hm => h (List.mem_cons_of_mem _ hm))
      · intro hk
        exact h (by simp [hk])

theorem assocFind_append_last {α β : Type} [DecidableEq α] {k : α} (v : β)
    {l : List (α × β)} (h : k ∉ l.map Prod.fst) :
    assocFind k (l ++ [(k, v)]) = some v := by
  induction l with
  | nil => simp [assocFind]
  | cons e rest ih =>
      obtain ⟨k', v'⟩ := e
      rw [List.cons_append, assocFind, if_neg]
      · exact ih (fun hm => h (List.mem_cons_of_mem _ hm))
      · intro hk
        exact h (by simp [hk])

theorem filter_ne_eq_self {α β : Type} [DecidableEq α] {k : α} {l : List (α × β)}
    (h : k ∉ l.map Prod.fst) : l.filter (fun e => e.1 ≠ k) = l := by
  induction l with
  | nil => rfl
  | cons e rest ih =>
      obtain ⟨k', v'⟩ := e
      have hne : k' ≠ k := fun hk => h (by simp [hk])
      rw [List.filter_cons_of_pos (by simpa using hne),
        ih (fun hm => h (List.mem_cons_of_mem _ hm))]

/-- Appending one entry and evicting to the 1000-entry cap drops only
from the front; the appended entry survives. -/
theorem dedupEvict_append_single {l : List (String × ℚ)} (e : String × ℚ) :
    dedupEvict (l ++ [e]) = l.drop ((l.length + 1) - 1000) ++ [e] := by
  rw [dedupEvict]
  have hle : (l.length + 1) - 1000 ≤ l.length := by omega
  rw [List.length_append]
  simp only [List.length_singleton]
  rw [List.drop_append_of_le_length hle]

theorem not_mem_keys_drop {k : String} {l : List (String × ℚ)} {n : ℕ}
    (h : k ∉ l.map Prod.fst) : k ∉ (l.drop n).map Prod.fst := by
  intro hm
  rw [List.map_drop] at hm
  exact h (List.mem_of_mem_drop hm)

set_option maxRecDepth 4000 in
/-- **C3** (confirmed).  For a triple not yet in the cache: the first
check records the current time and reports not-duplicate; a second check
strictly inside the 60 s window reports duplicate with the elapsed time
and leaves the cache (hence the stored timestamp) unchanged; a third
check at or after the window reports not-duplicate and stores the fresh
timestamp. -/
theorem C3_dedup_window (cache : DedupCache) (a j f : String) (t0 t1 t2 : ℚ)
    (hfresh : dedupKey a j f ∉ cache.entries.map Prod.fst)
    (h1 : t1 - t0 < 60) (h2 : 60 ≤ t2 - t0) :
    (checkAndRecord cache a j f t0).1 = false ∧
    (checkAndRecord cache a j f t0).2.1 = 0 ∧
    assocFind (dedupKey a j f) ((checkAndRecord cache a j f t0).2.2).entries
      = some t0 ∧
    checkAndRecord ((checkAndRecord cache a j f t0).2.2) a j f t1
      = (true, t1 - t0, (checkAndRecord cache a j f t0).2.2) ∧
    (checkAndRecord ((checkAndRecord cache a j f t0).2.2) a j f t2).1 = false ∧
    assocFind (dedupKey a j f)
      ((checkAndRecord ((checkAndRecord cache a j f t0).2.2) a j f t2).2.2).entries
      = some t2 := by
  set key := dedupKey a j f with hkey
  set n := (cache.entries.length + 1) - 1000 with hn
  have hfind0 : assocFind key cache.entries = none := assocFind_of_not_mem hfresh
  have hr1 : checkAndRecord cache a j f t0 =
      (false, 0, ⟨cache.entries.drop n ++ [(key, t0)]⟩) := by
    rw [checkAndRecord, ← hkey, hfind0, dedupEvict_append_single, ← hn]
  have hdropfresh : key ∉ (cache.entries.drop n).map Prod.fst :=
    not_mem_keys_drop hfresh
  have hfind1 : assocFind key (cache.entries.drop n ++ [(key, t0)]) = some t0 :=
    assocFind_append_last t0 hdropfresh
  have hr2 : checkAndRecord ⟨cache.entries.drop n ++ [(key, t0)]⟩ a j f t1 =
      (true, t1 - t0, ⟨cache.entries.drop n ++ [(key, t0)]⟩) := by
    rw [checkAndRecord, ← hkey, hfind1]
    dsimp only
    rw [if_pos (show t1 - t0 < NOTIFICATION_DEDUP_WINDOW by
      simpa [NOTIFICATION_DEDUP_WINDOW] using h1)]
  have hr3 : (checkAndRecord ⟨cache.entries.drop n ++ [(key, t0)]⟩ a j f t2).1 = false ∧
      assocFind key
        (checkAndRecord ⟨cache.entries.drop n ++ [(key, t0)]⟩ a j f t2).2.2.entries
        = some t2 := by
    rw [checkAndRecord, ← hkey, hfind1]
    dsimp only
    rw [if_neg (show ¬(t2 - t0 < NOTIFICATION_DEDUP_WINDOW) by
      simp only [NOTIFICATION_DEDUP_WINDOW]; linarith)]
    refine ⟨rfl, ?_⟩
    have hfilter : (cache.entries.drop n ++ [(key, t0)]).filter (fun e => e.1 ≠ key)
        = cache.entries.drop n := by
      rw [List.filter_append, filter_ne_eq_self hdropfresh]
      simp
    dsimp only
    rw [hfilter, dedupEvict_append_single]
    exact assocFind_append_last t2 (not_mem_keys_drop hdropfresh)
  rw [hr1]
  dsimp only
  exact ⟨rfl, rfl, hfind1, hr2, hr3.1, hr3.2⟩

/-- Witness for C3 on an empty cache with calls at t = 0, 30 and 60. -/
theorem C3_witness :
    (checkAndRecord ⟨[]⟩ "catchup_completed" "abc123" "/x/g.mkv" 0).1 = false ∧
    (checkAndRecord ⟨[]⟩ "catchup_completed" "abc123" "/x/g.mkv" 0).2.1 = 0 ∧
    assocFind (dedupKey "catchup_completed" "abc123" "/x/g.mkv")
      ((checkAndRecord ⟨[]⟩ "catchup_completed" "abc123" "/x/g.mkv" 0).2.2).entries
      = some 0 ∧
    checkAndRecord ((checkAndRecord ⟨[]⟩ "catchup_completed" "abc123" "/x/g.mkv" 0).2.2)
        "catchup_completed" "abc123" "/x/g.mkv" 30
      = (true, 30 - 0,
          (checkAndRecord ⟨[]⟩ "catchup_completed" "abc123" "/x/g.mkv" 0).2.2) ∧
    (checkAndRecord ((checkAndRecord ⟨[]⟩ "catchup_completed" "abc123" "/x/g.mkv" 0).2.2)
        "catchup_completed" "abc123" "/x/g.mkv" 60).1 = false ∧
    assocFind (dedupKey "catchup_completed" "abc123" "/x/g.mkv")
      ((checkAndRecord
          ((checkAndRecord ⟨[]⟩ "catchup_completed" "abc123" "/x/g.mkv" 0).2.2)
          "catchup_completed" "abc123" "/x/g.mkv" 60).2.2).entries
      = some 60 :=
  C3_dedup_window ⟨[]⟩ "catchup_completed" "abc123" "/x/g.mkv" 0 30 60
    (by simp) (by norm_num) (by norm_num)

/-! ## BoundedDict LRU lemmas -/

theorem length_filter_ne_of_mem {K V : Type} [DecidableEq K] {k : K} {v : V} :
    ∀ {l : List (K × V)}, (l.map Prod.fst).Nodup → (k, v) ∈ l →
      (l.filter (fun e => e.1 ≠ k)).length = l.length - 1 := by
  intro l
  induction l with
  | nil => intro _ h; cases h
  | cons e rest ih =>
      intro hnd hm
      by_cases hek : e.1 = k
      · have hkrest : k ∉ rest.map Prod.fst := by
          rw [List.map_cons, List.nodup_cons] at hnd
          rw [← hek]
          exact hnd.1
        rw [List.filter_cons_of_neg (by simpa using hek), filter_ne_eq_self hkrest]
        simp
      · have hmrest : (k, v) ∈ rest := by
          rcases List.mem_cons.mp hm with he | hr
          · exact absurd (congrArg Prod.fst he.symm) hek
          · exact hr
        have hlen := ih (by rw [List.map_cons, List.nodup_cons] at hnd; exact hnd.2) hmrest
        rw [List.filter_cons_of_pos (by simpa using hek), List.length_cons, hlen,
          List.length_cons]
        have : 1 ≤ rest.length := List.length_pos.mpr (List.ne_nil_of_mem hmrest)
        omega

theorem assocFind_eq_of_mem {K V : Type} [DecidableEq K] {k : K} {v : V} :
    ∀ {l : List (K × V)}, (l.map Prod.fst).Nodup → (k, v) ∈ l →
      assocFind k l = some v := by
  intro l
  induction l with
  | nil => intro _ h; cases h
  | cons e rest ih =>
      intro hnd hm
      obtain ⟨k', v'⟩ := e
      rw [List.map_cons, List.nodup_cons] at hnd
      by_cases hek : k' = k
      · rcases List.mem_cons.mp hm with he | hr
        · rw [assocFind, if_pos hek]
          have hv : v' = v := (congrArg Prod.snd he).symm
          rw [hv]
        · exact absurd (hek ▸ (List.mem_map_of_mem Prod.fst hr)) (by simpa using hnd.1)
      · have hr : (k, v) ∈ rest := by
          rcases List.mem_cons.mp hm with he | hr
          · exact absurd (congrArg Prod.fst he : k = k').symm hek
          · exact hr
        rw [assocFind, if_neg hek]
        exact ih hnd.2 hr

theorem bdSet_fresh_entries {K V : Type} [DecidableEq K] (d : BoundedDict K V)
    (k : K) (v : V) (hk : k ∉ d.entries.map Prod.fst) :
    bdSet d k v = ⟨d.maxSize,
      (d.entries ++ [(k, v)]).drop ((d.entries.length + 1) - d.maxSize)⟩ := by
  simp only [bdSet, BoundedDict.keys]
  rw [if_neg (by simpa using hk)]
  rw [List.length_append, List.length_singleton]

theorem bdSetList_maxSize {K V : Type} [DecidableEq K] :
    ∀ (L : List (K × V)) (d : BoundedDict K V),
      (bdSetList d L).maxSize = d.maxSize := by
  intro L
  induction L with
  | nil => intro d; rfl
  | cons e L' ih =>
      intro d
      have hstep : bdSetList d (e :: L') = bdSetList (bdSet d e.1 e.2) L' := rfl
      rw [hstep, ih]
      rfl

theorem bdSetList_fresh {K V : Type} [DecidableEq K] :
    ∀ (L : List (K × V)) (d : BoundedDict K V),
      (∀ x ∈ L.map Prod.fst, x ∉ d.entries.map Prod.fst) →
      (L.map Prod.fst).Nodup →
      d.entries.length ≤ d.maxSize →
      (bdSetList d L).entries =
        (d.entries ++ L).drop ((d.entries.length + L.length) - d.maxSize) := by
  intro L
  induction L with
  | nil =>
      intro d _ _ hle
      rw [bdSetList]
      simp [Nat.sub_eq_zero_of_le hle]
  | cons e L' ih =>
      intro d hfresh hnd hle
      obtain ⟨k, v⟩ := e
      have hk : k ∉ d.entries.map Prod.fst := hfresh k (by simp)
      have hnd' : (L'.map Prod.fst).Nodup := by
        rw [List.map_cons, List.nodup_cons] at hnd
        exact hnd.2
      have hknotin : k ∉ L'.map Prod.fst := by
        rw [List.map_cons, List.nodup_cons] at hnd
        exact hnd.1
      have hstep : bdSetList d ((k, v) :: L') = bdSetList (bdSet d k v) L' := rfl
      rw [hstep, bdSet_fresh_entries d k v hk]
      have hlen1 : ((d.entries ++ [(k, v)]).drop ((d.entries.length + 1) - d.maxSize)).length
          = (d.entries.length + 1) - ((d.entries.length + 1) - d.maxSize) := by
        rw [List.length_drop, List.length_append, List.length_singleton]
      have ihres := ih
        ⟨d.maxSize, (d.entries ++ [(k, v)]).drop ((d.entries.length + 1) - d.maxSize)⟩
        (by
          intro x hx hmem
          dsimp only at hmem
          rw [List.map_drop] at hmem
          have hx' := List.mem_of_mem_drop hmem
          rw [List.map_append] at hx'
          rcases List.mem_append.mp hx' with h1 | h2
          · exact hfresh x (by simp [hx]) h1
          · have hxk : x = k := by simpa using h2
            exact hknotin (hxk ▸ hx))
        hnd'
        (by
          dsimp only
          rw [hlen1]
          omega)
      rw [ihres]
      dsimp only
      have hdsplit : ((d.entries ++ [(k, v)]) ++ L').drop ((d.entries.length + 1) - d.maxSize)
          = (d.entries ++ [(k, v)]).drop ((d.entries.length + 1) - d.maxSize) ++ L' :=
        List.drop_append_of_le_length
          (by rw [List.length_append, List.length_singleton]; omega)
      rw [← hdsplit, List.drop_drop]
      have hassoc : (d.entries ++ [(k, v)]) ++ L' = d.entries ++ (k, v) :: L' := by simp
      rw [hassoc, hlen1]
      simp only [List.length_cons]
      congr 1
      omega

/-- **C8** (confirmed).  For any `BoundedDict` of capacity `C`:
inserting `C+1` distinct keys into an empty dict evicts exactly the
least-recently-used (first-inserted) key, leaving the other `C` keys
(the tail of the insertion sequence) present; `__getitem__` returns the
stored value and promotes the key to the most-recently-used end; and a
promoted key outlives all of the other current keys under subsequent
fresh inserts, being evicted only by the insert that follows them. -/
theorem C8_bounded_dict_lru {K V : Type} [DecidableEq K] :
    (∀ (C : ℕ) (L : List (K × V)), (L.map Prod.fst).Nodup → L.length = C + 1 →
        (bdSetList (bdEmpty C) L).entries = L.tail) ∧
    (∀ (d : BoundedDict K V) (k : K) (v : V),
        (d.entries.map Prod.fst).Nodup → (k, v) ∈ d.entries →
        bdGet d k =
          (some v, ⟨d.maxSize, d.entries.filter (fun e => e.1 ≠ k) ++ [(k, v)]⟩)) ∧
    (∀ (d : BoundedDict K V) (k : K) (v : V) (L : List (K × V)),
        (d.entries.map Prod.fst).Nodup → (k, v) ∈ d.entries →
        d.entries.length = d.maxSize →
        (∀ x ∈ L.map Prod.fst, x ∉ d.entries.map Prod.fst) →
        (L.map Prod.fst).Nodup → L.length + 1 = d.maxSize →
        (bdSetList (bdGet d k).2 L).entries = (k, v) :: L ∧
        ∀ (k2 : K) (v2 : V), (∀ x ∈ d.entries.map Prod.fst, x ≠ k2) →
          k2 ∉ L.map Prod.fst →
          (bdSet (bdSetList (bdGet d k).2 L) k2 v2).entries = L ++ [(k2, v2)]) := by
  have hGet : ∀ (d : BoundedDict K V) (k : K) (v : V),
      (d.entries.map Prod.fst).Nodup → (k, v) ∈ d.entries →
      bdGet d k =
        (some v, ⟨d.maxSize, d.entries.filter (fun e => e.1 ≠ k) ++ [(k, v)]⟩) := by
    intro d k v hnd hm
    simp only [bdGet, assocFind_eq_of_mem hnd hm]
  refine ⟨?_, hGet, ?_⟩
  · intro C L hnd hlen
    have := bdSetList_fresh L (bdEmpty C) (by intro x _ hx; cases hx) hnd
      (by simp [bdEmpty])
    rw [this]
    simp only [bdEmpty, List.nil_append, List.length_nil, Nat.zero_add]
    rw [hlen]
    simp [List.drop_one]
  · intro d k v L hnd hm hfull hfresh hndL hLlen
    have hd' : (bdGet d k).2 =
        ⟨d.maxSize, d.entries.filter (fun e => e.1 ≠ k) ++ [(k, v)]⟩ := by
      rw [hGet d k v hnd hm]
    have hlenf : (d.entries.filter (fun e => e.1 ≠ k)).length = d.entries.length - 1 :=
      length_filter_ne_of_mem hnd hm
    have hpos : 1 ≤ d.entries.length := List.length_pos.mpr (List.ne_nil_of_mem hm)
    have hkeysub : ∀ x, x ∈ (d.entries.filter (fun e => e.1 ≠ k) ++ [(k, v)]).map Prod.fst →
        x ∈ d.entries.map Prod.fst := by
      intro x hx
      rw [List.map_append] at hx
      rcases List.mem_append.mp hx with h1 | h2
      · rcases List.mem_map.mp h1 with ⟨e, hef, hex⟩
        exact hex ▸ List.mem_map_of_mem Prod.fst (List.mem_of_mem_filter hef)
      · have hxk : x = k := by simpa using h2
        exact hxk ▸ List.mem_map_of_mem Prod.fst hm
    have hmain : (bdSetList (bdGet d k).2 L).entries = (k, v) :: L := by
      rw [hd']
      have hres := bdSetList_fresh L
        ⟨d.maxSize, d.entries.filter (fun e => e.1 ≠ k) ++ [(k, v)]⟩
        (by
          intro x hx hmem
          exact hfresh x hx (hkeysub x hmem))
        hndL
        (by
          dsimp only
          rw [List.length_append, List.length_singleton, hlenf]
          omega)
      rw [hres]
      dsimp only
      rw [List.length_append, List.length_singleton, hlenf]
      have hidx : d.entries.length - 1 + 1 + L.length - d.maxSize = L.length := by omega
      rw [hidx]
      have hLfilter : L.length = (d.entries.filter (fun e => e.1 ≠ k)).length := by
        rw [hlenf]; omega
      rw [List.append_assoc, hLfilter, List.drop_left]
      rfl
    constructor
    · exact hmain
    · intro k2 v2 hk2 hk2L
      have hk2fresh : k2 ∉ ((bdSetList (bdGet d k).2 L).entries).map Prod.fst := by
        rw [hmain]
        intro hmem
        rcases List.mem_cons.mp (by simpa using hmem : k2 ∈ k :: L.map Prod.fst) with h1 | h2
        · exact hk2 k (List.mem_map_of_mem Prod.fst hm) h1.symm
        · exact hk2L h2
      have hms : (bdSetList (bdGet d k).2 L).maxSize = d.maxSize := by
        rw [bdSetList_maxSize, hd']
      rw [bdSet_fresh_entries _ k2 v2 hk2fresh, hmain, hms]
      simp only [List.length_cons]
      have hidx2 : L.length + 1 + 1 - d.maxSize = 1 := by omega
      rw [hidx2]
      simp

/-- Witness for C8 at capacity 2 with natural-number keys and values. -/
theorem C8_witness :
    (bdSetList (bdEmpty 2) [((1 : ℕ), (10 : ℕ)), (2, 20), (3, 30)]).entries
      = [((1 : ℕ), (10 : ℕ)), (2, 20), (3, 30)].tail ∧
    bdGet (⟨2, [((1 : ℕ), (10 : ℕ)), (2, 20)]⟩ : BoundedDict ℕ ℕ) 1
      = (some 10, ⟨2, [((1 : ℕ), (10 : ℕ)), (2, 20)].filter (fun e => e.1 ≠ 1) ++ [(1, 10)]⟩) ∧
    (bdSetList (bdGet (⟨2, [((1 : ℕ), (10 : ℕ)), (2, 20)]⟩ : BoundedDict ℕ ℕ) 1).2
        [(3, 30)]).entries = (1, 10) :: [(3, 30)] ∧
    (bdSet (bdSetList (bdGet (⟨2, [((1 : ℕ), (10 : ℕ)), (2, 20)]⟩ : BoundedDict ℕ ℕ) 1).2
        [(3, 30)]) 4 40).entries = [(3, 30)] ++ [(4, 40)] := by
  refine ⟨C8_bounded_dict_lru.1 2 [(1, 10), (2, 20), (3, 30)] (by decide) (by decide),
    C8_bounded_dict_lru.2.1 ⟨2, [(1, 10), (2, 20)]⟩ 1 10 (by decide) (by decide),
    (C8_bounded_dict_lru.2.2 ⟨2, [(1, 10), (2, 20)]⟩ 1 10 [(3, 30)]
      (by decide) (by decide) (by decide) (by decide) (by decide) (by decide)).1,
    (C8_bounded_dict_lru.2.2 ⟨2, [(1, 10), (2, 20)]⟩ 1 10 [(3, 30)]
      (by decide) (by decide) (by decide) (by decide) (by decide) (by decide)).2
      4 40 (by decide) (by decide)⟩

/-! ## Orchestrator control flow and delivery retries -/

/-- Backoff schedule of the retry loop when attempts `a..n-2` all
fail. -/
theorem pushoverGo_all_fail (dl : ℚ) (oc : ℕ → AttemptOutcome) (n : ℕ) :
    ∀ (k a : ℕ), a + k + 1 = n →
      (∀ i, a ≤ i → i + 1 < n → (oc i).isFailure = true) →
      pushoverGo dl oc n a =
        (lastAttemptResult (oc (n - 1)), (List.range' a k).map (fun j => dl * 2 ^ j)) := by
  intro k
  induction k with
  | zero =>
      intro a hlen hfail
      have ha : a < n := by omega
      have hlast : n - 1 = a := by omega
      rw [pushoverGo, if_pos ha, hlast]
      cases hoc : oc a with
      | success body => simp [hoc, lastAttemptResult]
      | httpFail status body =>
          dsimp only
          rw [if_neg (by omega)]
          simp [lastAttemptResult]
      | timeout =>
          dsimp only
          rw [if_neg (by omega)]
          simp [lastAttemptResult]
      | netError msg =>
          dsimp only
          rw [if_neg (by omega)]
          simp [lastAttemptResult]
  | succ k ih =>
      intro a hlen hfail
      have ha : a < n := by omega
      have hstep : a + 1 < n := by omega
      have hfaila : (oc a).isFailure = true := hfail a le_rfl hstep
      have hrec := ih (a + 1) (by omega) (fun i hi hin => hfail i (by omega) hin)
      rw [pushoverGo, if_pos ha]
      cases hoc : oc a with
      | success body => rw [hoc] at hfaila; simp [AttemptOutcome.isFailure] at hfaila
      | httpFail status body =>
          dsimp only
          rw [if_pos hstep, hrec]
          rw [List.range'_succ, List.map_cons]
      | timeout =>
          dsimp only
          rw [if_pos hstep, hrec]
          rw [List.range'_succ, List.map_cons]
      | netError msg =>
          dsimp only
          rw [if_pos hstep, hrec]
          rw [List.range'_succ, List.map_cons]
/-- For a valid action that is not a duplicate, the orchestrator reaches
the exit-code gate: it either suppresses or delivers, with the dedup
cache already updated by the check. -/
theorem notifyFlow_not_dup (p : Payload) (cache : DedupCache) (now : ℚ) (d : SendResult)
    (ha : ¬ pyLower (pyStrip (p.action.getD "")) = "")
    (hdup : (checkAndRecord cache (pyLower (pyStrip (p.action.getD "")))
        ((firstTruthy [p.jobIdFull, p.jobId]).getD "")
        ((firstTruthy [p.file]).getD "") now).1 = false) :
    notifyFlow p cache now d =
      (if pyEnds (pyLower (pyStrip (p.action.getD ""))) "_exit" = true ∧
          (asInt p.exitCode = none ∨ asInt p.exitCode = some 0)
        then ((NotifyResponse.suppressed "exit_code==0" (pyLower (pyStrip (p.action.getD "")))),
              (checkAndRecord cache (pyLower (pyStrip (p.action.getD "")))
                ((firstTruthy [p.jobIdFull, p.jobId]).getD "")
                ((firstTruthy [p.file]).getD "") now).2.2, false)
        else ((NotifyResponse.delivered d (pyLower (pyStrip (p.action.getD "")))),
              (checkAndRecord cache (pyLower (pyStrip (p.action.getD "")))
                ((firstTruthy [p.jobIdFull, p.jobId]).getD "")
                ((firstTruthy [p.file]).getD "") now).2.2, true)) := by
  rcases hcr : checkAndRecord cache (pyLower (pyStrip (p.action.getD "")))
      ((firstTruthy [p.jobIdFull, p.jobId]).getD "")
      ((firstTruthy [p.file]).getD "") now with ⟨dup, el, c'⟩
  rw [hcr] at hdup
  dsimp only at hdup
  subst hdup
  rw [notifyFlow]
  dsimp only
  rw [if_neg ha, hcr]
  dsimp only
  rw [if_neg (by simp : ¬ (false = true))]

/-- **C5** (corrected; amended form).  For a non-duplicate `*_exit`
event: when `int()` coercion of `exit_code` fails (absent field,
non-numeric value) or yields 0, the orchestrator responds `ok:true`
with `suppressed:true` and attempts no delivery; when the coercion
yields a nonzero integer — which includes numeric strings such as
`"1"` — processing proceeds to a delivery attempt. -/
theorem C5_exit_gate (p : Payload) (cache : DedupCache) (now : ℚ) (d : SendResult)
    (ha : ¬ pyLower (pyStrip (p.action.getD "")) = "")
    (hx : pyEnds (pyLower (pyStrip (p.action.getD ""))) "_exit" = true)
    (hdup : (checkAndRecord cache (pyLower (pyStrip (p.action.getD "")))
        ((firstTruthy [p.jobIdFull, p.jobId]).getD "")
        ((firstTruthy [p.file]).getD "") now).1 = false) :
    ((asInt p.exitCode = none ∨ asInt p.exitCode = some 0) →
        (notifyFlow p cache now d).1.suppressedFlag = true ∧
        (notifyFlow p cache now d).1.okFlag = true ∧
        (notifyFlow p cache now d).2.2 = false) ∧
    (∀ n : ℤ, n ≠ 0 → asInt p.exitCode = some n →
        (notifyFlow p cache now d).1
          = NotifyResponse.delivered d (pyLower (pyStrip (p.action.getD ""))) ∧
        (notifyFlow p cache now d).2.2 = true) := by
  have hbase := notifyFlow_not_dup p cache now d ha hdup
  constructor
  · intro hz
    rw [hbase, if_pos ⟨hx, hz⟩]
    exact ⟨rfl, rfl, rfl⟩
  · intro n hn hsome
    rw [hbase, if_neg]
    · exact ⟨rfl, rfl⟩
    · rintro ⟨-, hz | hz⟩
      · rw [hsome] at hz
        cases hz
      · rw [hsome] at hz
        exact hn (by injection hz)

/-- **C10** (confirmed).  When the `action` field is missing or
normalizes to the empty string, the orchestrator returns the 400
rejection with the dedup cache returned exactly as it came in: no key is
recorded, no entry evicted, and no delivery attempted. -/
theorem C10_validation_before_dedup (p : Payload) (cache : DedupCache) (now : ℚ) (d : SendResult)
    (h : pyLower (pyStrip (p.action.getD "")) = "") :
    notifyFlow p cache now d =
      (NotifyResponse.badRequest "Missing or empty 'action' field in webhook payload",
        cache, false) := by
  rw [notifyFlow]
  dsimp only
  rw [if_pos h]

/-- **C9** (confirmed).  Delivery uses bounded retries: when every
attempt before the last fails, the waits slept are exactly
`d·2^0, d·2^1, …, d·2^(n-2)` (so the wait before retry attempt `k` is
`d·2^(k-2)`) and the final result is the last attempt's outcome; a
timeout or transport error on a non-final attempt triggers the next
attempt after the scheduled wait; and whatever the delivery result —
including failures — the orchestrator's response keeps `ok:true` with
that result embedded in the `pushover` field. -/
theorem C9_delivery_retries :
    (∀ (dl : ℚ) (oc : ℕ → AttemptOutcome) (n : ℕ), 1 ≤ n →
        (∀ i, i + 1 < n → (oc i).isFailure = true) →
        pushoverGo dl oc n 0 =
          (lastAttemptResult (oc (n - 1)),
            (List.range (n - 1)).map (fun k => dl * 2 ^ k))) ∧
    (∀ (dl : ℚ) (oc : ℕ → AttemptOutcome) (n a : ℕ), a + 1 < n →
        (oc a = .timeout ∨ ∃ m, oc a = .netError m) →
        pushoverGo dl oc n a =
          ((pushoverGo dl oc n (a + 1)).1,
            dl * 2 ^ a :: (pushoverGo dl oc n (a + 1)).2)) ∧
    (∀ (p : Payload) (cache : DedupCache) (now : ℚ) (res : SendResult),
        ¬ pyLower (pyStrip (p.action.getD "")) = "" →
        (checkAndRecord cache (pyLower (pyStrip (p.action.getD "")))
          ((firstTruthy [p.jobIdFull, p.jobId]).getD "")
          ((firstTruthy [p.file]).getD "") now).1 = false →
        ¬(pyEnds (pyLower (pyStrip (p.action.getD ""))) "_exit" = true ∧
            (asInt p.exitCode = none ∨ asInt p.exitCode = some 0)) →
        (notifyFlow p cache now res).1.okFlag = true ∧
        (notifyFlow p cache now res).1.pushoverField = some res) := by
  refine ⟨?_, ?_, ?_⟩
  · intro dl oc n hn hfail
    rw [pushoverGo_all_fail dl oc n (n - 1) 0 (by omega) (fun i _ hin => hfail i hin)]
    rw [List.range_eq_range']
  · intro dl oc n a hstep hfail
    have ha : a < n := by omega
    rw [pushoverGo, if_pos ha]
    rcases hfail with ht | ⟨m, hm⟩
    · rw [ht]
      dsimp only
      rw [if_pos hstep]
    · rw [hm]
      dsimp only
      rw [if_pos hstep]
  · intro p cache now res ha hdup hng
    rw [notifyFlow_not_dup p cache now res ha hdup, if_neg hng]
    exact ⟨rfl, rfl⟩

/-- Witness for C5's amended theorem at exit codes 0 and 1. -/
theorem C5_witness :
    ((notifyFlow pC5zero ⟨[]⟩ 0 (.jsonBody "ok")).1.suppressedFlag = true ∧
      (notifyFlow pC5zero ⟨[]⟩ 0 (.jsonBody "ok")).1.okFlag = true ∧
      (notifyFlow pC5zero ⟨[]⟩ 0 (.jsonBody "ok")).2.2 = false) ∧
    ((notifyFlow pC5one ⟨[]⟩ 0 (.jsonBody "ok")).1
        = NotifyResponse.delivered (.jsonBody "ok")
            (pyLower (pyStrip (pC5one.action.getD ""))) ∧
      (notifyFlow pC5one ⟨[]⟩ 0 (.jsonBody "ok")).2.2 = true) :=
  ⟨(C5_exit_gate pC5zero ⟨[]⟩ 0 (.jsonBody "ok") (by decide) (by decide) (by decide)).1
      (Or.inr (by decide)),
    (C5_exit_gate pC5one ⟨[]⟩ 0 (.jsonBody "ok") (by decide) (by decide) (by decide)).2
      1 (by decide) (by decide)⟩

/-- Counterexample to C5 as stated: `exit_code` is the JSON *string*
`"1"` — a non-integer value — yet the orchestrator does not suppress: it
proceeds to a delivery attempt, because `_as_int` coerces the string to
the integer 1. -/
theorem C5_counterexample :
    pC5.exitCode = some (.jstr "1") ∧
    (∀ n : ℤ, pC5.exitCode ≠ some (.jint n)) ∧
    (notifyFlow pC5 ⟨[]⟩ 0 (.jsonBody "ok")).1.suppressedFlag = false ∧
    (notifyFlow pC5 ⟨[]⟩ 0 (.jsonBody "ok")).2.2 = true ∧
    (notifyFlow pC5 ⟨[]⟩ 0 (.jsonBody "ok")).1
      = NotifyResponse.delivered (.jsonBody "ok") "recording_exit" := by
  refine ⟨by decide, fun n => by simp [pC5], by decide, by decide, by decide⟩

/-- Witness for C9: three timeouts with base delay 2 sleep 2 s then 4 s
and report the timeout failure; the response embeds a failed delivery
with `ok:true`. -/
theorem C9_witness :
    pushoverGo 2 (fun _ => AttemptOutcome.timeout) 3 0
      = (lastAttemptResult ((fun _ => AttemptOutcome.timeout) (3 - 1)),
          (List.range (3 - 1)).map (fun k => (2 : ℚ) * 2 ^ k)) ∧
    pushoverGo 2 (fun _ => AttemptOutcome.timeout) 3 0
      = ((pushoverGo 2 (fun _ => AttemptOutcome.timeout) 3 1).1,
          2 * 2 ^ 0 :: (pushoverGo 2 (fun _ => AttemptOutcome.timeout) 3 1).2) ∧
    ((notifyFlow p9 ⟨[]⟩ 0 (.statusError 500)).1.okFlag = true ∧
      (notifyFlow p9 ⟨[]⟩ 0 (.statusError 500)).1.pushoverField
        = some (.statusError 500)) :=
  ⟨C9_delivery_retries.1 2 (fun _ => .timeout) 3 (by norm_num) (fun i _ => rfl),
    C9_delivery_retries.2.1 2 (fun _ => .timeout) 3 0 (by norm_num) (Or.inl rfl),
    C9_delivery_retries.2.2 p9 ⟨[]⟩ 0 (.statusError 500)
      (by decide) (by decide) (by decide)⟩

/-- Witness for C10: a payload without an action leaves a one-entry
cache untouched. -/
theorem C10_witness :
    notifyFlow p10 ⟨[("k", 5)]⟩ 0 (.jsonBody "x")
      = (NotifyResponse.badRequest "Missing or empty 'action' field in webhook payload",
          ⟨[("k", 5)]⟩, false) :=
  C10_validation_before_dedup p10 ⟨[("k", 5)]⟩ 0 (.jsonBody "x") (by decide)
